import Mathlib

/-!
Shallow embedding of the `salty-reviewer` repository (Go) and verification
of the frozen claims about it.

Sources embedded here:
  * `internal/config/config.go`   — configuration, reviewer reputation lists
  * `internal/ai/client.go`       — the chat-completion client
  * `internal/reviewer/*`         — the review pipeline (first pass, deep
    analysis, comment formatting, extra nitpicks, posting)
  * `internal/defender/defender.go` — the comment-defense pipeline
  * `extractJSON` (identical in reviewer and defender packages)

Go slices become Lean `List`s, Go `int` becomes `Int`, Go strings become
`String` (and `List Char` where the claim is about per-character indexing,
as in `extractJSON`).  Fallible steps (network calls, the LLM, JSON
parsing) are environment parameters of type `Except String _`, keyed by
call position where the loop calls once per item.  External effects on the
hosting API (`PostReview`, `ReplyToComment`) are recorded in an explicit
trace.
-/

/-! ## Configuration (`internal/config/config.go`) -/

/-- `Config` from `config.go`. `WritingStyle` is a Go string type, kept as
`String`. -/
structure Config where
  gitHubToken : String
  aiApiURL : String
  aiApiKey : String
  aiModel : String
  writingStyle : String
  nitpickyLevel : Int
  likedReviewers : List String
  dislikedReviewers : List String
deriving Repr, DecidableEq

/-- `DefaultConfig` from `config.go`. -/
def DefaultConfig : Config :=
  { gitHubToken := ""
    aiApiURL := "https://api.openai.com/v1"
    aiApiKey := ""
    aiModel := "gpt-4"
    writingStyle := "passive_aggressive"
    nitpickyLevel := 5
    likedReviewers := []
    dislikedReviewers := [] }

/-- `Config.Validate` from `config.go`. -/
def Config.Validate (c : Config) : Except String Unit :=
  if c.gitHubToken = "" then .error "github_token is required"
  else if c.aiApiKey = "" then .error "ai_api_key is required"
  else if c.nitpickyLevel < 1 ∨ c.nitpickyLevel > 10 then
    .error "nitpicky_level must be between 1 and 10"
  else .ok ()

/-- `Config.IsLikedReviewer`: linear scan of the liked list. -/
def Config.IsLikedReviewer (c : Config) (username : String) : Bool :=
  c.likedReviewers.any (fun u => u = username)

/-- `Config.IsDislikedReviewer`: linear scan of the disliked list. -/
def Config.IsDislikedReviewer (c : Config) (username : String) : Bool :=
  c.dislikedReviewers.any (fun u => u = username)

/-- The loop body of `removeFromLiked` / `removeFromDisliked`: remove the
first occurrence of `username`, leaving the rest untouched (the Go loop
returns right after the first removal). -/
def removeFirst : List String → String → List String
  | [], _ => []
  | u :: rest, username =>
      if u = username then rest else u :: removeFirst rest username

/-- `Config.removeFromLiked` from `config.go`. -/
def Config.removeFromLiked (c : Config) (username : String) : Config :=
  { c with likedReviewers := removeFirst c.likedReviewers username }

/-- `Config.removeFromDisliked` from `config.go`. -/
def Config.removeFromDisliked (c : Config) (username : String) : Config :=
  { c with dislikedReviewers := removeFirst c.dislikedReviewers username }

/-- `Config.AddLikedReviewer` from `config.go`: append if absent, then
remove from the disliked list. -/
def Config.AddLikedReviewer (c : Config) (username : String) : Config :=
  let c' :=
    if c.IsLikedReviewer username then c
    else { c with likedReviewers := c.likedReviewers ++ [username] }
  c'.removeFromDisliked username

/-- `Config.AddDislikedReviewer` from `config.go`: append if absent, then
remove from the liked list. -/
def Config.AddDislikedReviewer (c : Config) (username : String) : Config :=
  let c' :=
    if c.IsDislikedReviewer username then c
    else { c with dislikedReviewers := c.dislikedReviewers ++ [username] }
  c'.removeFromLiked username

/-- `Config.GetReviewerBias` from `config.go`: −2 for liked, +3 for
disliked, 0 otherwise (liked checked first). -/
def Config.GetReviewerBias (c : Config) (username : String) : Int :=
  if c.IsLikedReviewer username then -2
  else if c.IsDislikedReviewer username then 3
  else 0

/-- The effective nitpicky level computed inline at the top of
`Reviewer.Review` (`prompts.go` lines 298–305): configured level plus
reviewer bias, clamped below at 1 and above at 10. -/
def effectiveNitpicky (c : Config) (author : String) : Int :=
  let e0 := c.nitpickyLevel + c.GetReviewerBias author
  let e1 := if e0 < 1 then 1 else e0
  if e1 > 10 then 10 else e1

/-! ## Reputation-list operations: helper lemmas -/

theorem removeFirst_eq_erase (l : List String) (u : String) :
    removeFirst l u = l.erase u := by
  induction l with
  | nil => rfl
  | cons x xs ih =>
      by_cases hx : x = u
      · simp [removeFirst, hx, List.erase_cons]
      · simp [removeFirst, hx, List.erase_cons, ih]

theorem isLikedReviewer_iff (c : Config) (u : String) :
    c.IsLikedReviewer u = true ↔ u ∈ c.likedReviewers := by
  simp [Config.IsLikedReviewer]

theorem isDislikedReviewer_iff (c : Config) (u : String) :
    c.IsDislikedReviewer u = true ↔ u ∈ c.dislikedReviewers := by
  simp [Config.IsDislikedReviewer]

/-- The invariant of the reputation lists: no duplicates, and the two
lists are disjoint. -/
def ListsInvariant (c : Config) : Prop :=
  c.likedReviewers.Nodup ∧ c.dislikedReviewers.Nodup ∧
    ∀ u, u ∈ c.likedReviewers → u ∉ c.dislikedReviewers

/-- A reputation-changing operation on the configuration. -/
inductive ReviewerOp where
  | like (username : String)
  | dislike (username : String)

/-- Apply one reputation-changing operation. -/
def applyReviewerOp (c : Config) : ReviewerOp → Config
  | .like u => c.AddLikedReviewer u
  | .dislike u => c.AddDislikedReviewer u

/-- Apply a sequence of reputation-changing operations, left to right. -/
def applyReviewerOps (c : Config) (ops : List ReviewerOp) : Config :=
  ops.foldl applyReviewerOp c

theorem addLiked_liked (c : Config) (u : String) :
    (c.AddLikedReviewer u).likedReviewers =
      if u ∈ c.likedReviewers then c.likedReviewers
      else c.likedReviewers ++ [u] := by
  by_cases h : u ∈ c.likedReviewers
  · simp [Config.AddLikedReviewer, Config.removeFromDisliked,
      (isLikedReviewer_iff c u).mpr h, h]
  · have hb : c.IsLikedReviewer u = false := by
      rcases Bool.eq_false_or_eq_true (c.IsLikedReviewer u) with ht | hf
      · exact absurd ((isLikedReviewer_iff c u).mp ht) h
      · exact hf
    simp [Config.AddLikedReviewer, Config.removeFromDisliked, hb, h]

theorem addLiked_disliked (c : Config) (u : String) :
    (c.AddLikedReviewer u).dislikedReviewers = c.dislikedReviewers.erase u := by
  by_cases h : c.IsLikedReviewer u <;>
    simp [Config.AddLikedReviewer, Config.removeFromDisliked, h,
      removeFirst_eq_erase]

theorem addDisliked_disliked (c : Config) (u : String) :
    (c.AddDislikedReviewer u).dislikedReviewers =
      if u ∈ c.dislikedReviewers then c.dislikedReviewers
      else c.dislikedReviewers ++ [u] := by
  by_cases h : u ∈ c.dislikedReviewers
  · simp [Config.AddDislikedReviewer, Config.removeFromLiked,
      (isDislikedReviewer_iff c u).mpr h, h]
  · have hb : c.IsDislikedReviewer u = false := by
      rcases Bool.eq_false_or_eq_true (c.IsDislikedReviewer u) with ht | hf
      · exact absurd ((isDislikedReviewer_iff c u).mp ht) h
      · exact hf
    simp [Config.AddDislikedReviewer, Config.removeFromLiked, hb, h]

theorem addDisliked_liked (c : Config) (u : String) :
    (c.AddDislikedReviewer u).likedReviewers = c.likedReviewers.erase u := by
  by_cases h : c.IsDislikedReviewer u <;>
    simp [Config.AddDislikedReviewer, Config.removeFromLiked, h,
      removeFirst_eq_erase]

theorem nodup_append_singleton {l : List String} {u : String}
    (hl : l.Nodup) (hu : u ∉ l) : (l ++ [u]).Nodup := by
  refine List.Nodup.append hl (List.nodup_singleton u) ?_
  intro x hx hx'
  simp at hx'
  subst hx'
  exact hu hx

theorem listsInvariant_addLiked {c : Config} (h : ListsInvariant c)
    (u : String) : ListsInvariant (c.AddLikedReviewer u) := by
  obtain ⟨hL, hD, hdisj⟩ := h
  refine ⟨?_, ?_, ?_⟩
  · rw [addLiked_liked]
    by_cases hm : u ∈ c.likedReviewers
    · simpa [hm] using hL
    · simpa [hm] using nodup_append_singleton hL hm
  · rw [addLiked_disliked]
    exact hD.erase u
  · intro v hv hv'
    rw [addLiked_disliked] at hv'
    rw [addLiked_liked] at hv
    have hvd : v ∈ c.dislikedReviewers := List.mem_of_mem_erase hv'
    by_cases hvu : v = u
    · subst hvu
      exact absurd hv' (hD.not_mem_erase)
    · have hvl : v ∈ c.likedReviewers := by
        by_cases hm : u ∈ c.likedReviewers
        · simpa [hm] using hv
        · simp [hm] at hv
          rcases hv with hv | hv
          · exact hv
          · exact absurd hv hvu
      exact hdisj v hvl hvd

theorem listsInvariant_addDisliked {c : Config} (h : ListsInvariant c)
    (u : String) : ListsInvariant (c.AddDislikedReviewer u) := by
  obtain ⟨hL, hD, hdisj⟩ := h
  refine ⟨?_, ?_, ?_⟩
  · rw [addDisliked_liked]
    exact hL.erase u
  · rw [addDisliked_disliked]
    by_cases hm : u ∈ c.dislikedReviewers
    · simpa [hm] using hD
    · simpa [hm] using nodup_append_singleton hD hm
  · intro v hv hv'
    rw [addDisliked_liked] at hv
    rw [addDisliked_disliked] at hv'
    have hvl : v ∈ c.likedReviewers := List.mem_of_mem_erase hv
    by_cases hvu : v = u
    · subst hvu
      exact absurd hv (hL.not_mem_erase)
    · have hvd : v ∈ c.dislikedReviewers := by
        by_cases hm : u ∈ c.dislikedReviewers
        · simpa [hm] using hv'
        · simp [hm] at hv'
          rcases hv' with hv' | hv'
          · exact hv'
          · exact absurd hv' hvu
      exact hdisj v hvl hvd

theorem listsInvariant_applyOps {c : Config} (h : ListsInvariant c)
    (ops : List ReviewerOp) : ListsInvariant (applyReviewerOps c ops) := by
  induction ops generalizing c with
  | nil => exact h
  | cons op rest ih =>
      cases op with
      | like u => exact ih (listsInvariant_addLiked h u)
      | dislike u => exact ih (listsInvariant_addDisliked h u)

/-- A concrete valid configuration used by witnesses. -/
def sampleConfig : Config :=
  { gitHubToken := "ghp_token"
    aiApiURL := "https://api.openai.com/v1"
    aiApiKey := "sk-key"
    aiModel := "gpt-4"
    writingStyle := "passive_aggressive"
    nitpickyLevel := 5
    likedReviewers := ["alice"]
    dislikedReviewers := ["bob"] }

/-- C2: for every PR author and every valid configuration, the effective
nitpicky level is the configured level plus a reputation bias of −2 for a
liked author, +3 for a disliked author and 0 otherwise, clamped to 1..10,
and consequently the acceptance threshold `90 - 5*e` lies between 40
and 85. -/
theorem C2_reputation_shifted_threshold (c : Config) (author : String)
    (hv : c.Validate = .ok ()) :
    effectiveNitpicky c author =
      (let bias : Int :=
        if c.IsLikedReviewer author then -2
        else if c.IsDislikedReviewer author then 3
        else 0
       let e0 := c.nitpickyLevel + bias
       let e1 := if e0 < 1 then 1 else e0
       if e1 > 10 then 10 else e1)
    ∧ 1 ≤ effectiveNitpicky c author
    ∧ effectiveNitpicky c author ≤ 10
    ∧ 40 ≤ 90 - 5 * effectiveNitpicky c author
    ∧ 90 - 5 * effectiveNitpicky c author ≤ 85 := by
  have hb : 1 ≤ effectiveNitpicky c author ∧ effectiveNitpicky c author ≤ 10 := by
    simp only [effectiveNitpicky]
    split <;> split <;> omega
  exact ⟨rfl, hb.1, hb.2, by omega, by omega⟩

/-- Witness for C2 at a concrete valid configuration and author. -/
theorem C2_reputation_shifted_threshold_witness :
    sampleConfig.Validate = .ok ()
    ∧ (effectiveNitpicky sampleConfig "bob" =
        (let bias : Int :=
          if sampleConfig.IsLikedReviewer "bob" then -2
          else if sampleConfig.IsDislikedReviewer "bob" then 3
          else 0
         let e0 := sampleConfig.nitpickyLevel + bias
         let e1 := if e0 < 1 then 1 else e0
         if e1 > 10 then 10 else e1)
      ∧ 1 ≤ effectiveNitpicky sampleConfig "bob"
      ∧ effectiveNitpicky sampleConfig "bob" ≤ 10
      ∧ 40 ≤ 90 - 5 * effectiveNitpicky sampleConfig "bob"
      ∧ 90 - 5 * effectiveNitpicky sampleConfig "bob" ≤ 85) :=
  ⟨by rfl, C2_reputation_shifted_threshold sampleConfig "bob" (by rfl)⟩

/-- C8: from any configuration with disjoint, duplicate-free reputation
lists, any sequence of `AddLikedReviewer` / `AddDislikedReviewer`
operations preserves disjointness and freedom from duplicates; adding a
username to one list removes it from the other, and adding a username
already present in the target list leaves that list unchanged. -/
theorem C8_reputation_lists_invariant (c : Config) (ops : List ReviewerOp)
    (h : ListsInvariant c) :
    ListsInvariant (applyReviewerOps c ops)
    ∧ (∀ u, u ∉ ((applyReviewerOps c ops).AddLikedReviewer u).dislikedReviewers)
    ∧ (∀ u, u ∉ ((applyReviewerOps c ops).AddDislikedReviewer u).likedReviewers)
    ∧ (∀ u, u ∈ (applyReviewerOps c ops).likedReviewers →
        ((applyReviewerOps c ops).AddLikedReviewer u).likedReviewers =
          (applyReviewerOps c ops).likedReviewers)
    ∧ (∀ u, u ∈ (applyReviewerOps c ops).dislikedReviewers →
        ((applyReviewerOps c ops).AddDislikedReviewer u).dislikedReviewers =
          (applyReviewerOps c ops).dislikedReviewers) := by
  have hinv := listsInvariant_applyOps h ops
  obtain ⟨hL, hD, _⟩ := hinv
  refine ⟨listsInvariant_applyOps h ops, ?_, ?_, ?_, ?_⟩
  · intro u
    rw [addLiked_disliked]
    exact hD.not_mem_erase
  · intro u
    rw [addDisliked_liked]
    exact hL.not_mem_erase
  · intro u hu
    rw [addLiked_liked]
    simp [hu]
  · intro u hu
    rw [addDisliked_disliked]
    simp [hu]

/-- Witness for C8: a concrete starting configuration and operation
sequence. -/
theorem C8_reputation_lists_invariant_witness :
    ListsInvariant sampleConfig
    ∧ (ListsInvariant (applyReviewerOps sampleConfig
          [ReviewerOp.like "bob", ReviewerOp.dislike "carol"])
      ∧ (∀ u, u ∉ ((applyReviewerOps sampleConfig
            [ReviewerOp.like "bob", ReviewerOp.dislike "carol"]).AddLikedReviewer u).dislikedReviewers)
      ∧ (∀ u, u ∉ ((applyReviewerOps sampleConfig
            [ReviewerOp.like "bob", ReviewerOp.dislike "carol"]).AddDislikedReviewer u).likedReviewers)
      ∧ (∀ u, u ∈ (applyReviewerOps sampleConfig
            [ReviewerOp.like "bob", ReviewerOp.dislike "carol"]).likedReviewers →
          ((applyReviewerOps sampleConfig
            [ReviewerOp.like "bob", ReviewerOp.dislike "carol"]).AddLikedReviewer u).likedReviewers =
            (applyReviewerOps sampleConfig
              [ReviewerOp.like "bob", ReviewerOp.dislike "carol"]).likedReviewers)
      ∧ (∀ u, u ∈ (applyReviewerOps sampleConfig
            [ReviewerOp.like "bob", ReviewerOp.dislike "carol"]).dislikedReviewers →
          ((applyReviewerOps sampleConfig
            [ReviewerOp.like "bob", ReviewerOp.dislike "carol"]).AddDislikedReviewer u).dislikedReviewers =
            (applyReviewerOps sampleConfig
              [ReviewerOp.like "bob", ReviewerOp.dislike "carol"]).dislikedReviewers)) := by
  have h : ListsInvariant sampleConfig := by
    refine ⟨by decide, by decide, ?_⟩
    intro u hu hv
    simp [sampleConfig] at hu hv
    subst hu
    exact absurd hv (by decide)
  exact ⟨h, C8_reputation_lists_invariant sampleConfig
    [ReviewerOp.like "bob", ReviewerOp.dislike "carol"] h⟩

/-! ## `extractJSON` (`reviewer/deep_analysis.go` lines 168–178, and the
identical copy in `defender/defender.go` lines 249–256) -/

/-- The opening-brace character (code point 123). -/
def lbraceChar : Char := Char.ofNat 123

/-- The closing-brace character (code point 125). -/
def rbraceChar : Char := Char.ofNat 125

/-- Go `strings.Index(s, needle)` for a one-character needle: index of the
first occurrence, or −1 when absent. -/
def goIndexOf : List Char → Char → Int
  | [], _ => -1
  | x :: xs, c =>
      if x = c then 0
      else if goIndexOf xs c = -1 then -1 else goIndexOf xs c + 1

/-- Go `strings.LastIndex(s, needle)` for a one-character needle: index of
the last occurrence, or −1 when absent. -/
def goLastIndexOf : List Char → Char → Int
  | [], _ => -1
  | x :: xs, c =>
      if goLastIndexOf xs c = -1 then (if x = c then 0 else -1)
      else goLastIndexOf xs c + 1

/-- `extractJSON`: find the first opening brace and the last closing
brace; when both exist and the latter is strictly past the former, return
`response[start : end+1]`, else the input unchanged. -/
def extractJSON (response : List Char) : List Char :=
  let start := goIndexOf response lbraceChar
  let e := goLastIndexOf response rbraceChar
  if start ≠ -1 ∧ e ≠ -1 ∧ e > start then
    (response.drop start.toNat).take (e.toNat + 1 - start.toNat)
  else response

theorem goIndexOf_spec (l : List Char) (c : Char) :
    (goIndexOf l c = -1 ∧ c ∉ l) ∨
    (∃ pre post, l = pre ++ c :: post ∧ goIndexOf l c = pre.length ∧
      c ∉ pre) := by
  induction l with
  | nil => exact .inl ⟨rfl, by simp⟩
  | cons x xs ih =>
      by_cases hx : x = c
      · subst hx
        exact .inr ⟨[], xs, rfl, by simp [goIndexOf], by simp⟩
      · rcases ih with ⟨h1, h2⟩ | ⟨pre, post, heq, hidx, hpre⟩
        · refine .inl ⟨by simp [goIndexOf, hx, h1], ?_⟩
          simp only [List.mem_cons, not_or]
          exact ⟨fun h => hx h.symm, h2⟩
        · refine .inr ⟨x :: pre, post, by simp [heq], ?_, ?_⟩
          · have hne : goIndexOf xs c ≠ -1 := by rw [hidx]; omega
            simp only [goIndexOf, hx, if_false, if_neg hne, hidx,
              List.length_cons, if_neg hx]
            push_cast
            ring
          · simp only [List.mem_cons, not_or]
            exact ⟨fun h => hx h.symm, hpre⟩

theorem goLastIndexOf_spec (l : List Char) (c : Char) :
    (goLastIndexOf l c = -1 ∧ c ∉ l) ∨
    (∃ pre post, l = pre ++ c :: post ∧ goLastIndexOf l c = pre.length ∧
      c ∉ post) := by
  induction l with
  | nil => exact .inl ⟨rfl, by simp⟩
  | cons x xs ih =>
      rcases ih with ⟨h1, h2⟩ | ⟨pre, post, heq, hidx, hpost⟩
      · by_cases hx : x = c
        · subst hx
          exact .inr ⟨[], xs, rfl, by simp [goLastIndexOf, h1], h2⟩
        · refine .inl ⟨by simp [goLastIndexOf, h1, hx], ?_⟩
          simp only [List.mem_cons, not_or]
          exact ⟨fun h => hx h.symm, h2⟩
      · have hne : goLastIndexOf xs c ≠ -1 := by rw [hidx]; omega
        refine .inr ⟨x :: pre, post, by simp [heq], ?_, hpost⟩
        simp only [goLastIndexOf, if_neg hne, hidx, List.length_cons]
        push_cast
        ring

theorem goIndexOf_cons_self (c : Char) (t : List Char) :
    goIndexOf (c :: t) c = 0 := by
  simp [goIndexOf]

theorem goLastIndexOf_concat (w : List Char) (c : Char) :
    goLastIndexOf (w ++ [c]) c = w.length := by
  induction w with
  | nil => simp [goLastIndexOf]
  | cons x xs ih =>
      have hne : goLastIndexOf (xs ++ [c]) c ≠ -1 := by rw [ih]; omega
      simp only [List.cons_append, goLastIndexOf, List.append_eq,
        if_neg hne, ih, List.length_cons]
      push_cast
      ring

theorem extractJSON_matched (s : List Char)
    (h : ∃ i j : Nat, i < j ∧ s[i]? = some lbraceChar ∧
      s[j]? = some rbraceChar) :
    (∃ pre post, s = pre ++ extractJSON s ++ post ∧ lbraceChar ∉ pre ∧
      rbraceChar ∉ post)
    ∧ (∃ u, extractJSON s = lbraceChar :: u)
    ∧ (∃ v, extractJSON s = v ++ [rbraceChar]) := by
  obtain ⟨i, j, hij, hi, hj⟩ := h
  have hmemL : lbraceChar ∈ s := List.getElem?_mem hi
  have hmemR : rbraceChar ∈ s := List.getElem?_mem hj
  rcases goIndexOf_spec s lbraceChar with ⟨_, hno⟩ |
    ⟨preL, postL, heqL, hidxL, hpreL⟩
  · exact absurd hmemL hno
  rcases goLastIndexOf_spec s rbraceChar with ⟨_, hno⟩ |
    ⟨preR, postR, heqR, hidxR, hpostR⟩
  · exact absurd hmemR hno
  have hai : preL.length ≤ i := by
    by_contra hlt
    push_neg at hlt
    have hgi : s[i]? = preL[i]? := by
      rw [heqL, List.getElem?_append]
      rw [if_pos hlt]
    exact hpreL (List.getElem?_mem (hgi ▸ hi))
  have heqR' : s = (preR ++ [rbraceChar]) ++ postR := by rw [heqR]; simp
  have hjb : j ≤ preR.length := by
    by_contra hlt
    push_neg at hlt
    have hgj : s[j]? = postR[j - (preR ++ [rbraceChar]).length]? := by
      rw [heqR', List.getElem?_append_right (by simp; omega)]
    exact hpostR (List.getElem?_mem (hgj ▸ hj))
  have hab : preL.length < preR.length := by omega
  have hcond : goIndexOf s lbraceChar ≠ -1 ∧ goLastIndexOf s rbraceChar ≠ -1 ∧
      goLastIndexOf s rbraceChar > goIndexOf s lbraceChar := by
    rw [hidxL, hidxR]
    exact ⟨by omega, by omega, by exact_mod_cast hab⟩
  have hext : extractJSON s =
      (s.drop preL.length).take (preR.length + 1 - preL.length) := by
    simp only [extractJSON]
    rw [if_pos hcond, hidxL, hidxR]
    simp [Int.toNat_natCast]
  have hdropa : s.drop preL.length = lbraceChar :: postL := by
    conv_lhs => rw [heqL]
    exact List.drop_left preL _
  have htakeb : s.take (preR.length + 1) = preR ++ [rbraceChar] := by
    conv_lhs => rw [heqR']
    have hlen : preR.length + 1 = (preR ++ [rbraceChar]).length := by simp
    rw [hlen]
    exact List.take_left _ _
  have hdt : (s.take (preR.length + 1)).drop preL.length =
      (s.drop preL.length).take (preR.length + 1 - preL.length) :=
    List.drop_take _ _ s
  have h1 : (s.take (preR.length + 1)).take preL.length =
      s.take preL.length := by
    rw [List.take_take, min_eq_left (by omega)]
  have hsplit : s = s.take preL.length ++ extractJSON s ++
      s.drop (preR.length + 1) := by
    rw [hext, ← hdt, ← h1]
    rw [List.take_append_drop, List.take_append_drop]
  have hextcons : extractJSON s =
      lbraceChar :: postL.take (preR.length - preL.length) := by
    rw [hext, hdropa]
    have hsucc : preR.length + 1 - preL.length =
        (preR.length - preL.length) + 1 := by omega
    rw [hsucc, List.take_succ_cons]
  have hextconcat : extractJSON s =
      preR.drop preL.length ++ [rbraceChar] := by
    rw [hext, ← hdt, htakeb]
    exact List.drop_append_of_le_length (by omega)
  have hpre_eq : s.take preL.length = preL := by
    conv_lhs => rw [heqL]
    exact List.take_left preL _
  have hpost_eq : s.drop (preR.length + 1) = postR := by
    conv_lhs => rw [heqR']
    have hlen : preR.length + 1 = (preR ++ [rbraceChar]).length := by simp
    rw [hlen]
    exact List.drop_left _ _
  refine ⟨⟨s.take preL.length, s.drop (preR.length + 1), hsplit, ?_, ?_⟩,
    ⟨_, hextcons⟩, ⟨_, hextconcat⟩⟩
  · rw [hpre_eq]; exact hpreL
  · rw [hpost_eq]; exact hpostR

theorem extractJSON_fixed {t : List Char} (hu : ∃ u, t = lbraceChar :: u)
    (hv : ∃ v, t = v ++ [rbraceChar]) : extractJSON t = t := by
  obtain ⟨u, hu⟩ := hu
  obtain ⟨v, hv⟩ := hv
  have h1 : goIndexOf t lbraceChar = 0 := by
    rw [hu]; exact goIndexOf_cons_self _ _
  have h2 : goLastIndexOf t rbraceChar = v.length := by
    rw [hv]; exact goLastIndexOf_concat _ _
  have hlen : t.length = v.length + 1 := by rw [hv]; simp
  have hvpos : 0 < v.length := by
    rcases v with _ | ⟨x, v'⟩
    · exfalso
      rw [hv] at hu
      simp only [List.nil_append] at hu
      injection hu with hhead _
      exact absurd hhead (by decide)
    · simp
  have hcond : goIndexOf t lbraceChar ≠ -1 ∧ goLastIndexOf t rbraceChar ≠ -1 ∧
      goLastIndexOf t rbraceChar > goIndexOf t lbraceChar := by
    rw [h1, h2]
    exact ⟨by omega, by omega, by exact_mod_cast hvpos⟩
  simp only [extractJSON]
  rw [if_pos hcond, h1, h2]
  simp only [Int.toNat_natCast, Int.toNat_zero, List.drop_zero, Nat.sub_zero]
  rw [← hlen, List.take_length]

theorem extractJSON_unmatched (s : List Char)
    (h : ¬ ∃ i j : Nat, i < j ∧ s[i]? = some lbraceChar ∧
      s[j]? = some rbraceChar) :
    extractJSON s = s := by
  by_cases hc : goIndexOf s lbraceChar ≠ -1 ∧ goLastIndexOf s rbraceChar ≠ -1 ∧
      goLastIndexOf s rbraceChar > goIndexOf s lbraceChar
  · exfalso
    apply h
    rcases goIndexOf_spec s lbraceChar with ⟨h1, _⟩ |
      ⟨preL, postL, heqL, hidxL, _⟩
    · exact absurd h1 hc.1
    rcases goLastIndexOf_spec s rbraceChar with ⟨h1, _⟩ |
      ⟨preR, postR, heqR, hidxR, _⟩
    · exact absurd h1 hc.2.1
    refine ⟨preL.length, preR.length, ?_, ?_, ?_⟩
    · have hgt := hc.2.2
      rw [hidxL, hidxR] at hgt
      exact_mod_cast hgt
    · rw [heqL, List.getElem?_append_right (le_refl _)]
      simp
    · rw [heqR, List.getElem?_append_right (le_refl _)]
      simp
  · simp only [extractJSON]
    rw [if_neg hc]

theorem extractJSON_idem (s : List Char) :
    extractJSON (extractJSON s) = extractJSON s := by
  by_cases h : ∃ i j : Nat, i < j ∧ s[i]? = some lbraceChar ∧
      s[j]? = some rbraceChar
  · obtain ⟨_, hu, hv⟩ := extractJSON_matched s h
    exact extractJSON_fixed hu hv
  · rw [extractJSON_unmatched s h, extractJSON_unmatched s h]

/-- C9: when the input contains an opening brace with a closing brace
strictly after it, `extractJSON` returns the contiguous substring running
from the first opening brace (nothing before it is an opening brace and it
is the head) through the last closing brace (nothing after it is a closing
brace and it is the last element); otherwise the input is returned
unchanged; and `extractJSON` is idempotent. -/
theorem C9_extractJSON_slice_and_idempotent (s : List Char) :
    ((∃ i j : Nat, i < j ∧ s[i]? = some lbraceChar ∧
        s[j]? = some rbraceChar) →
      ∃ pre post, s = pre ++ extractJSON s ++ post
        ∧ lbraceChar ∉ pre ∧ rbraceChar ∉ post
        ∧ (extractJSON s).head? = some lbraceChar
        ∧ (extractJSON s).getLast? = some rbraceChar)
    ∧ ((¬ ∃ i j : Nat, i < j ∧ s[i]? = some lbraceChar ∧
        s[j]? = some rbraceChar) →
      extractJSON s = s)
    ∧ extractJSON (extractJSON s) = extractJSON s := by
  refine ⟨?_, extractJSON_unmatched s, extractJSON_idem s⟩
  intro h
  obtain ⟨⟨pre, post, hsplit, hpre, hpost⟩, ⟨u, hu⟩, ⟨v, hv⟩⟩ :=
    extractJSON_matched s h
  refine ⟨pre, post, hsplit, hpre, hpost, ?_, ?_⟩
  · rw [hu]; rfl
  · rw [hv]; exact List.getLast?_concat _

/-! ## The chat-completion client (`internal/ai/client.go`) -/

/-- `Message` from `client.go`. -/
structure Message where
  role : String
  content : String
deriving Repr, DecidableEq

/-- `ChatRequest` from `client.go`: the marshalled request body.
`json.Marshal` is injective on this data, so the body is represented by
the request value itself. -/
structure ChatRequest where
  model : String
  messages : List Message
  temperature : Float
  maxTokens : Int
deriving Repr

/-- One element of `ChatResponse.Choices` (the nested message is
flattened into its two fields). -/
structure ChatChoice where
  index : Int
  messageRole : String
  messageContent : String
  finishReason : String
deriving Repr, DecidableEq

/-- `ChatResponse.Error` (Go field `Type` is `errType` here). -/
structure ChatError where
  message : String
  errType : String
  code : String
deriving Repr, DecidableEq

/-- `ChatResponse.Usage`. -/
structure ChatUsage where
  promptTokens : Int
  completionTokens : Int
  totalTokens : Int
deriving Repr, DecidableEq

/-- `ChatResponse` from `client.go`. -/
structure ChatResponse where
  id : String
  object : String
  created : Int
  model : String
  choices : List ChatChoice
  usage : ChatUsage
  error : Option ChatError
deriving Repr, DecidableEq

/-- `Client` from `client.go`; the embedded `http.Client` is represented
by its configured timeout. -/
structure AIClient where
  baseURL : String
  apiKey : String
  model : String
  timeoutSeconds : Nat
deriving Repr, DecidableEq

/-- `ai.NewClient`: trims trailing slashes from the base URL and sets a
120-second timeout. -/
def NewClient (baseURL apiKey model : String) : AIClient :=
  { baseURL := baseURL.dropRightWhile (fun ch => ch = Char.ofNat 47)
    apiKey := apiKey
    model := model
    timeoutSeconds := 120 }

/-- The request body `ChatWithOptions` marshals: the client's model with
the given messages, temperature and max tokens. -/
def buildChatRequest (c : AIClient) (messages : List Message)
    (temperature : Float) (maxTokens : Int) : ChatRequest :=
  { model := c.model
    messages := messages
    temperature := temperature
    maxTokens := maxTokens }

/-- What `ChatWithOptions` does with a successfully parsed response body:
an API error aborts, an empty choice list aborts, otherwise the first
choice's message content is returned. -/
def chatResponseResult (resp : ChatResponse) : Except String String :=
  match resp.error with
  | some e =>
      .error ("API error: " ++ e.message ++ " (type: " ++ e.errType ++ ")")
  | none =>
      match resp.choices with
      | [] => .error "no choices in response"
      | choice :: _ => .ok choice.messageContent

/-- `Client.ChatWithOptions`.  The network round trip is a parameter
mapping the marshalled request to a transport/parse error or the parsed
`ChatResponse`.  The client is returned alongside the outcome so that any
state change would be visible; the Go method never assigns to the
receiver, which the embedding reflects by returning `c` itself. -/
def ChatWithOptions (c : AIClient) (messages : List Message)
    (temperature : Float) (maxTokens : Int)
    (network : ChatRequest → Except String ChatResponse) :
    AIClient × Except String String :=
  let req := buildChatRequest c messages temperature maxTokens
  match network req with
  | .error e => (c, .error e)
  | .ok resp => (c, chatResponseResult resp)

/-- `Client.Chat`: `ChatWithOptions` with temperature 0.7 and 4096 max
tokens. -/
def Chat (c : AIClient) (messages : List Message)
    (network : ChatRequest → Except String ChatResponse) :
    AIClient × Except String String :=
  ChatWithOptions c messages 0.7 4096 network

/-- C7: the chat-completion client is a stateless request/response
wrapper: a call leaves the client unchanged, two calls on equal clients
with equal messages, temperature and max-tokens build identical request
bodies, and given equal response bodies they return equal results. -/
theorem C7_chat_client_stateless (c c' : AIClient)
    (messages messages' : List Message) (temperature temperature' : Float)
    (maxTokens maxTokens' : Int)
    (network network' : ChatRequest → Except String ChatResponse)
    (hc : c = c') (hm : messages = messages')
    (ht : temperature = temperature') (hk : maxTokens = maxTokens')
    (hresp : network (buildChatRequest c messages temperature maxTokens) =
      network' (buildChatRequest c' messages' temperature' maxTokens')) :
    (ChatWithOptions c messages temperature maxTokens network).1 = c
    ∧ (Chat c messages network).1 = c
    ∧ buildChatRequest c messages temperature maxTokens =
        buildChatRequest c' messages' temperature' maxTokens'
    ∧ (ChatWithOptions c messages temperature maxTokens network).2 =
        (ChatWithOptions c' messages' temperature' maxTokens' network').2 := by
  subst hc hm ht hk
  refine ⟨?_, ?_, rfl, ?_⟩
  · simp only [ChatWithOptions]
    cases network (buildChatRequest c messages temperature maxTokens) <;> rfl
  · simp only [Chat, ChatWithOptions]
    cases network (buildChatRequest c messages 0.7 4096) <;> rfl
  · simp only [ChatWithOptions, hresp]

/-- Witness for C7 at a concrete client, message list and network. -/
theorem C7_chat_client_stateless_witness :
    (let c : AIClient := NewClient "https://api.openai.com/v1" "sk-key" "gpt-4"
     let messages : List Message := [{ role := "user", content := "hi" }]
     let network : ChatRequest → Except String ChatResponse := fun _ =>
       .ok { id := "1", object := "chat.completion", created := 0,
             model := "gpt-4",
             choices := [{ index := 0, messageRole := "assistant",
                           messageContent := "hello", finishReason := "stop" }],
             usage := { promptTokens := 1, completionTokens := 1,
                        totalTokens := 2 },
             error := none }
     (ChatWithOptions c messages 0.7 4096 network).1 = c
     ∧ (Chat c messages network).1 = c
     ∧ buildChatRequest c messages 0.7 4096 =
         buildChatRequest c messages 0.7 4096
     ∧ (ChatWithOptions c messages 0.7 4096 network).2 =
         (ChatWithOptions c messages 0.7 4096 network).2) :=
  C7_chat_client_stateless _ _ _ _ _ _ _ _ _ _ rfl rfl rfl rfl rfl

/-! ## Hosting-API data (`internal/github/github.go`) -/

/-- `FileChange` from `github.go`. -/
structure FileChange where
  filename : String
  status : String
  additions : Int
  deletions : Int
  patch : String
  previousName : String
deriving Repr, DecidableEq

/-- `ReviewComment` from `github.go`. -/
structure ReviewComment where
  path : String
  line : Int
  body : String
  side : String
deriving Repr, DecidableEq

/-- `PRComment` from `github.go`. -/
structure PRComment where
  id : Int
  user : String
  body : String
  path : String
  line : Int
  createdAt : String
  inReplyTo : Int
deriving Repr, DecidableEq

/-- A mutating call to the hosting API, recorded in the run's trace. -/
inductive ApiCall where
  | postReview (body : String) (event : String)
      (comments : List ReviewComment)
  | replyToComment (commentID : Int) (body : String)
deriving Repr, DecidableEq

/-! ## The review pipeline (`internal/reviewer/deep_analysis.go` and the
`Reviewer.Review` orchestration in `prompts.go`) -/

/-- `Issue` from `deep_analysis.go`. -/
structure Issue where
  file : String
  line : Int
  code : String
  issue : String
  confidence : Int
  mightBeIntentional : String
deriving Repr, DecidableEq

/-- `DeepAnalysisResult` from `deep_analysis.go`. -/
structure DeepAnalysisResult where
  stillAnIssue : Bool
  confidence : Int
  reasoning : String
  possibleAuthorIntent : String
  finalVerdict : String
deriving Repr, DecidableEq

/-- `AnalyzedIssue` from `deep_analysis.go`. -/
structure AnalyzedIssue where
  original : Issue
  analysis : DeepAnalysisResult
deriving Repr, DecidableEq

/-- One element of `NitpickResult.Nitpicks`. -/
structure Nitpick where
  file : String
  line : Int
  comment : String
deriving Repr, DecidableEq

/-- `NitpickResult` from `deep_analysis.go`. -/
structure NitpickResult where
  nitpicks : List Nitpick
deriving Repr, DecidableEq

/-- `ReviewStats` from `prompts.go`. -/
structure ReviewStats where
  filesReviewed : Nat
  issuesFound : Nat
  issuesAfterDeep : Nat
  nitpicksAdded : Nat
  commentsPosted : Nat
deriving Repr, DecidableEq

/-- `ReviewResult` from `prompts.go`. -/
structure ReviewResult where
  summary : String
  comments : List ReviewComment
  stats : ReviewStats
deriving Repr, DecidableEq

/-- The environment of one `Reviewer.Review` run: the outcome of every
external call the run makes, keyed by call site, and by loop position for
the per-item calls (`DeepAnalyze` for candidate `i`, `formatComment` for
confirmed issue `i`). -/
structure ReviewEnv where
  parseRef : Except String Unit
  getPR : Except String String
  getFiles : Except String (List FileChange)
  firstPass : Except String (List Issue)
  deep : Nat → Except String DeepAnalysisResult
  fmtComment : Nat → Except String String
  nitpicks : Except String NitpickResult
  postOutcome : Option String

/-- The body of the deep-analysis loop (`prompts.go` lines 341–361) with
an explicit accumulator, exactly as the Go loop appends to
`confirmedIssues`: a failed `DeepAnalyze` call skips the item, a
successful one keeps it when the confidence is at least the threshold and
the verdict is COMMENT. -/
def deepLoopGo (threshold : Int)
    (deep : Nat → Except String DeepAnalysisResult) :
    Nat → List Issue → List AnalyzedIssue → List AnalyzedIssue
  | _, [], acc => acc
  | i, issue :: rest, acc =>
      match deep i with
      | .error _ => deepLoopGo threshold deep (i + 1) rest acc
      | .ok analysis =>
          if analysis.confidence ≥ threshold ∧
              analysis.finalVerdict = "COMMENT" then
            deepLoopGo threshold deep (i + 1) rest
              (acc ++ [{ original := issue, analysis := analysis }])
          else
            deepLoopGo threshold deep (i + 1) rest acc

/-- The deep-analysis loop over the whole candidate list. -/
def deepLoop (threshold : Int)
    (deep : Nat → Except String DeepAnalysisResult)
    (issues : List Issue) : List AnalyzedIssue :=
  deepLoopGo threshold deep 0 issues []

/-- The per-item confirmation decision of the deep-analysis loop at
position `i`. -/
def confirmStep (threshold : Int)
    (deep : Nat → Except String DeepAnalysisResult) (i : Nat)
    (issue : Issue) : Option AnalyzedIssue :=
  match deep i with
  | .error _ => none
  | .ok analysis =>
      if analysis.confidence ≥ threshold ∧
          analysis.finalVerdict = "COMMENT" then
        some { original := issue, analysis := analysis }
      else none

/-- Accumulator-free form of the deep-analysis loop from position `i`. -/
def confirmedList (threshold : Int)
    (deep : Nat → Except String DeepAnalysisResult) :
    Nat → List Issue → List AnalyzedIssue
  | _, [] => []
  | i, issue :: rest =>
      match confirmStep threshold deep i issue with
      | none => confirmedList threshold deep (i + 1) rest
      | some ai => ai :: confirmedList threshold deep (i + 1) rest

/-- The body of the comment-formatting loop (`prompts.go` lines 368–381):
a failed `formatComment` call skips the item, a successful one appends a
RIGHT-side comment at the issue's file and line. -/
def formatLoopGo (fmtOracle : Nat → Except String String) :
    Nat → List AnalyzedIssue → List ReviewComment → List ReviewComment
  | _, [], acc => acc
  | i, ci :: rest, acc =>
      match fmtOracle i with
      | .error _ => formatLoopGo fmtOracle (i + 1) rest acc
      | .ok body =>
          formatLoopGo fmtOracle (i + 1) rest
            (acc ++ [{ path := ci.original.file, line := ci.original.line,
                       body := body, side := "RIGHT" }])

/-- The comment-formatting loop over the confirmed issues. -/
def formatLoop (fmtOracle : Nat → Except String String)
    (confirmed : List AnalyzedIssue) : List ReviewComment :=
  formatLoopGo fmtOracle 0 confirmed []

/-- The per-item formatting decision at position `i`. -/
def formatStep (fmtOracle : Nat → Except String String) (i : Nat)
    (ci : AnalyzedIssue) : Option ReviewComment :=
  match fmtOracle i with
  | .error _ => none
  | .ok body =>
      some { path := ci.original.file, line := ci.original.line,
             body := body, side := "RIGHT" }

/-- Accumulator-free form of the formatting loop from position `i`. -/
def formattedList (fmtOracle : Nat → Except String String) :
    Nat → List AnalyzedIssue → List ReviewComment
  | _, [] => []
  | i, ci :: rest =>
      match formatStep fmtOracle i ci with
      | none => formattedList fmtOracle (i + 1) rest
      | some comment => comment :: formattedList fmtOracle (i + 1) rest

/-- The review comment built from one extra nitpick (`prompts.go` lines
393–399). -/
def nitpickComment (np : Nitpick) : ReviewComment :=
  { path := np.file, line := np.line, body := np.comment, side := "RIGHT" }

/-- The style-specific opening of `Reviewer.generateSummary`
(`prompts.go` lines 452–469); an unrecognized style writes nothing, as
the Go switch has no default arm. -/
def summaryHeader (style : String) : String :=
  if style = "corporate" then
    "## Code Review Summary\n\n" ++
    "Thank you for your contribution to this project. " ++
    "Please find below my observations regarding this pull request.\n\n"
  else if style = "passive_aggressive" then
    "## Review Notes\n\n" ++
    "I\x27ve had a chance to look over this PR. " ++
    "I\x27m sure most of my comments are probably unnecessary, but just in case...\n\n"
  else if style = "tech_bro" then
    "## Quick Review 🚀\n\n" ++
    "Took a pass through this. Some thoughts below. " ++
    "Let\x27s iterate quickly on these and ship it.\n\n"
  else if style = "academic" then
    "## Review Commentary\n\n" ++
    "Upon examination of the proposed changes, " ++
    "several observations warrant discussion.\n\n"
  else ""

/-- The style-specific closing of `Reviewer.generateSummary` when no
comment was generated (`prompts.go` lines 474–485). -/
def summaryCloser (style : String) : String :=
  if style = "corporate" then
    "No significant issues identified at this time. Approved pending standard verification procedures."
  else if style = "passive_aggressive" then
    "I couldn\x27t find anything to comment on. I\x27m sure it\x27s fine. Probably."
  else if style = "tech_bro" then
    "LGTM! Ship it. 🚀"
  else if style = "academic" then
    "The implementation appears sound. No substantive concerns identified."
  else ""

/-- `Reviewer.generateSummary` (`prompts.go` lines 449–488). -/
def generateSummary (style : String) (filesReviewed : Nat)
    (comments : List ReviewComment) : String :=
  summaryHeader style
    ++ "**Files reviewed:** " ++ toString filesReviewed ++ "\n"
    ++ "**Comments:** " ++ toString comments.length ++ "\n\n"
    ++ (if comments.length = 0 then summaryCloser style else "")

/-- The confirmed-issue list a review run computes: the deep-analysis
loop run at the threshold `90 - effectiveNitpicky * 5` of `prompts.go`
line 351. -/
def reviewConfirmed (cfg : Config) (env : ReviewEnv) (author : String)
    (issues : List Issue) : List AnalyzedIssue :=
  deepLoop (90 - effectiveNitpicky cfg author * 5) env.deep issues

/-- The extra comments appended for a disliked author (`prompts.go`
lines 384–404), with the count added to `Stats.NitpicksAdded`; a failed
`GenerateExtraNitpicks` call adds nothing. -/
def reviewExtra (cfg : Config) (env : ReviewEnv) (author : String) :
    List ReviewComment × Nat :=
  if cfg.IsDislikedReviewer author then
    match env.nitpicks with
    | .ok result => (result.nitpicks.map nitpickComment,
        result.nitpicks.length)
    | .error _ => ([], 0)
  else ([], 0)

/-- The full comment list a review run accumulates: formatted confirmed
issues, then the extra nitpicks. -/
def reviewComments (cfg : Config) (env : ReviewEnv) (author : String)
    (issues : List Issue) : List ReviewComment :=
  formatLoop env.fmtComment (reviewConfirmed cfg env author issues)
    ++ (reviewExtra cfg env author).1

/-- `Reviewer.Review` (`prompts.go` lines 281–433): parse the reference,
fetch the PR and its files, run the first pass, deep-analyze each
candidate against the threshold, format the confirmed issues, append
extra nitpicks for disliked authors, generate the summary, then either
print (dry run, empty trace) or post the review with event
REQUEST_CHANGES when there are comments and the effective nitpicky level
is at least 7, COMMENT otherwise. -/
def Review (cfg : Config) (env : ReviewEnv) (dryRun : Bool) :
    Except String (ReviewResult × List ApiCall) :=
  match env.parseRef with
  | .error e => .error e
  | .ok _ =>
  match env.getPR with
  | .error e => .error e
  | .ok author =>
  match env.getFiles with
  | .error e => .error e
  | .ok files =>
  match env.firstPass with
  | .error e => .error ("first pass failed: " ++ e)
  | .ok issues =>
    let comments := reviewComments cfg env author issues
    let stats : ReviewStats :=
      { filesReviewed := files.length
        issuesFound := issues.length
        issuesAfterDeep := (reviewConfirmed cfg env author issues).length
        nitpicksAdded := (reviewExtra cfg env author).2
        commentsPosted := 0 }
    let summary := generateSummary cfg.writingStyle files.length comments
    if dryRun then
      .ok ({ summary := summary, comments := comments, stats := stats }, [])
    else
      let event :=
        if comments.length > 0 ∧ effectiveNitpicky cfg author ≥ 7 then
          "REQUEST_CHANGES"
        else "COMMENT"
      match env.postOutcome with
      | some e => .error ("failed to post review: " ++ e)
      | none =>
          .ok ({ summary := summary, comments := comments,
                 stats := { stats with commentsPosted := comments.length } },
               [ApiCall.postReview summary event comments])

/-! ### Loop characterizations -/

theorem confirmStep_error (threshold : Int)
    (deep : Nat → Except String DeepAnalysisResult) (i : Nat)
    (issue : Issue) (msg : String) (hd : deep i = .error msg) :
    confirmStep threshold deep i issue = none := by
  unfold confirmStep
  rw [hd]

theorem confirmStep_ok (threshold : Int)
    (deep : Nat → Except String DeepAnalysisResult) (i : Nat)
    (issue : Issue) (analysis : DeepAnalysisResult)
    (hd : deep i = .ok analysis) :
    confirmStep threshold deep i issue =
      if analysis.confidence ≥ threshold ∧
          analysis.finalVerdict = "COMMENT" then
        some { original := issue, analysis := analysis }
      else none := by
  unfold confirmStep
  rw [hd]

theorem deepLoopGo_cons_error (threshold : Int)
    (deep : Nat → Except String DeepAnalysisResult) (i : Nat)
    (issue : Issue) (rest : List Issue) (acc : List AnalyzedIssue)
    (msg : String) (hd : deep i = .error msg) :
    deepLoopGo threshold deep i (issue :: rest) acc =
      deepLoopGo threshold deep (i + 1) rest acc := by
  conv_lhs => rw [deepLoopGo]
  rw [hd]

theorem deepLoopGo_cons_ok (threshold : Int)
    (deep : Nat → Except String DeepAnalysisResult) (i : Nat)
    (issue : Issue) (rest : List Issue) (acc : List AnalyzedIssue)
    (analysis : DeepAnalysisResult) (hd : deep i = .ok analysis) :
    deepLoopGo threshold deep i (issue :: rest) acc =
      if analysis.confidence ≥ threshold ∧
          analysis.finalVerdict = "COMMENT" then
        deepLoopGo threshold deep (i + 1) rest
          (acc ++ [{ original := issue, analysis := analysis }])
      else deepLoopGo threshold deep (i + 1) rest acc := by
  conv_lhs => rw [deepLoopGo]
  rw [hd]

theorem confirmedList_cons_error (threshold : Int)
    (deep : Nat → Except String DeepAnalysisResult) (i : Nat)
    (issue : Issue) (rest : List Issue) (msg : String)
    (hd : deep i = .error msg) :
    confirmedList threshold deep i (issue :: rest) =
      confirmedList threshold deep (i + 1) rest := by
  conv_lhs => rw [confirmedList]
  rw [confirmStep_error threshold deep i issue msg hd]

theorem confirmedList_cons_ok (threshold : Int)
    (deep : Nat → Except String DeepAnalysisResult) (i : Nat)
    (issue : Issue) (rest : List Issue) (analysis : DeepAnalysisResult)
    (hd : deep i = .ok analysis) :
    confirmedList threshold deep i (issue :: rest) =
      if analysis.confidence ≥ threshold ∧
          analysis.finalVerdict = "COMMENT" then
        { original := issue, analysis := analysis } ::
          confirmedList threshold deep (i + 1) rest
      else confirmedList threshold deep (i + 1) rest := by
  conv_lhs => rw [confirmedList]
  rw [confirmStep_ok threshold deep i issue analysis hd]
  by_cases hc : analysis.confidence ≥ threshold ∧
      analysis.finalVerdict = "COMMENT"
  · rw [if_pos hc, if_pos hc]
  · rw [if_neg hc, if_neg hc]

theorem deepLoopGo_eq (threshold : Int)
    (deep : Nat → Except String DeepAnalysisResult) :
    ∀ (issues : List Issue) (i : Nat) (acc : List AnalyzedIssue),
      deepLoopGo threshold deep i issues acc =
        acc ++ confirmedList threshold deep i issues := by
  intro issues
  induction issues with
  | nil => intro i acc; simp [deepLoopGo, confirmedList]
  | cons issue rest ih =>
      intro i acc
      cases hd : deep i with
      | error e =>
          rw [deepLoopGo_cons_error threshold deep i issue rest acc e hd,
            confirmedList_cons_error threshold deep i issue rest e hd]
          exact ih (i + 1) acc
      | ok analysis =>
          rw [deepLoopGo_cons_ok threshold deep i issue rest acc analysis hd,
            confirmedList_cons_ok threshold deep i issue rest analysis hd]
          by_cases hc : analysis.confidence ≥ threshold ∧
              analysis.finalVerdict = "COMMENT"
          · rw [if_pos hc, if_pos hc, ih (i + 1)]
            simp
          · rw [if_neg hc, if_neg hc]
            exact ih (i + 1) acc

theorem deepLoop_eq (threshold : Int)
    (deep : Nat → Except String DeepAnalysisResult) (issues : List Issue) :
    deepLoop threshold deep issues = confirmedList threshold deep 0 issues := by
  simpa using deepLoopGo_eq threshold deep issues 0 []

theorem formatStep_error (fmtOracle : Nat → Except String String) (i : Nat)
    (ci : AnalyzedIssue) (msg : String) (hf : fmtOracle i = .error msg) :
    formatStep fmtOracle i ci = none := by
  unfold formatStep
  rw [hf]

theorem formatStep_ok (fmtOracle : Nat → Except String String) (i : Nat)
    (ci : AnalyzedIssue) (body : String) (hf : fmtOracle i = .ok body) :
    formatStep fmtOracle i ci =
      some { path := ci.original.file, line := ci.original.line,
             body := body, side := "RIGHT" } := by
  unfold formatStep
  rw [hf]

theorem formatLoopGo_cons_error (fmtOracle : Nat → Except String String)
    (i : Nat) (ci : AnalyzedIssue) (rest : List AnalyzedIssue)
    (acc : List ReviewComment) (msg : String)
    (hf : fmtOracle i = .error msg) :
    formatLoopGo fmtOracle i (ci :: rest) acc =
      formatLoopGo fmtOracle (i + 1) rest acc := by
  conv_lhs => rw [formatLoopGo]
  rw [hf]

theorem formatLoopGo_cons_ok (fmtOracle : Nat → Except String String)
    (i : Nat) (ci : AnalyzedIssue) (rest : List AnalyzedIssue)
    (acc : List ReviewComment) (body : String)
    (hf : fmtOracle i = .ok body) :
    formatLoopGo fmtOracle i (ci :: rest) acc =
      formatLoopGo fmtOracle (i + 1) rest
        (acc ++ [{ path := ci.original.file, line := ci.original.line,
                   body := body, side := "RIGHT" }]) := by
  conv_lhs => rw [formatLoopGo]
  rw [hf]

theorem formattedList_cons_error (fmtOracle : Nat → Except String String)
    (i : Nat) (ci : AnalyzedIssue) (rest : List AnalyzedIssue)
    (msg : String) (hf : fmtOracle i = .error msg) :
    formattedList fmtOracle i (ci :: rest) =
      formattedList fmtOracle (i + 1) rest := by
  conv_lhs => rw [formattedList]
  rw [formatStep_error fmtOracle i ci msg hf]

theorem formattedList_cons_ok (fmtOracle : Nat → Except String String)
    (i : Nat) (ci : AnalyzedIssue) (rest : List AnalyzedIssue)
    (body : String) (hf : fmtOracle i = .ok body) :
    formattedList fmtOracle i (ci :: rest) =
      { path := ci.original.file, line := ci.original.line,
        body := body, side := "RIGHT" } ::
        formattedList fmtOracle (i + 1) rest := by
  conv_lhs => rw [formattedList]
  rw [formatStep_ok fmtOracle i ci body hf]

theorem formatLoopGo_eq (fmtOracle : Nat → Except String String) :
    ∀ (cis : List AnalyzedIssue) (i : Nat) (acc : List ReviewComment),
      formatLoopGo fmtOracle i cis acc =
        acc ++ formattedList fmtOracle i cis := by
  intro cis
  induction cis with
  | nil => intro i acc; simp [formatLoopGo, formattedList]
  | cons ci rest ih =>
      intro i acc
      cases hf : fmtOracle i with
      | error e =>
          rw [formatLoopGo_cons_error fmtOracle i ci rest acc e hf,
            formattedList_cons_error fmtOracle i ci rest e hf]
          exact ih (i + 1) acc
      | ok body =>
          rw [formatLoopGo_cons_ok fmtOracle i ci rest acc body hf,
            formattedList_cons_ok fmtOracle i ci rest body hf, ih (i + 1)]
          simp

theorem formatLoop_eq (fmtOracle : Nat → Except String String)
    (cis : List AnalyzedIssue) :
    formatLoop fmtOracle cis = formattedList fmtOracle 0 cis := by
  simpa using formatLoopGo_eq fmtOracle cis 0 []

theorem confirmedList_map_original_sublist (threshold : Int)
    (deep : Nat → Except String DeepAnalysisResult) :
    ∀ (issues : List Issue) (i : Nat),
      ((confirmedList threshold deep i issues).map
        AnalyzedIssue.original).Sublist issues := by
  intro issues
  induction issues with
  | nil => intro i; simp [confirmedList]
  | cons issue rest ih =>
      intro i
      simp only [confirmedList]
      cases hs : confirmStep threshold deep i issue with
      | none => exact (ih (i + 1)).cons issue
      | some ai =>
          have hai : ai.original = issue := by
            cases hd : deep i with
            | error e =>
                rw [confirmStep_error threshold deep i issue e hd] at hs
                exact absurd hs (by simp)
            | ok analysis =>
                rw [confirmStep_ok threshold deep i issue analysis hd] at hs
                by_cases hc : analysis.confidence ≥ threshold ∧
                    analysis.finalVerdict = "COMMENT"
                · rw [if_pos hc] at hs
                  cases hs
                  rfl
                · rw [if_neg hc] at hs
                  exact absurd hs (by simp)
          simp only [List.map_cons, hai]
          exact (ih (i + 1)).cons₂ issue

theorem confirmedList_length_le (threshold : Int)
    (deep : Nat → Except String DeepAnalysisResult) :
    ∀ (issues : List Issue) (i : Nat),
      (confirmedList threshold deep i issues).length ≤ issues.length := by
  intro issues
  induction issues with
  | nil => intro i; simp [confirmedList]
  | cons issue rest ih =>
      intro i
      simp only [confirmedList]
      cases confirmStep threshold deep i issue with
      | none => exact le_trans (ih (i + 1)) (by simp)
      | some ai => simpa using ih (i + 1)

theorem formattedList_length_le (fmtOracle : Nat → Except String String) :
    ∀ (cis : List AnalyzedIssue) (i : Nat),
      (formattedList fmtOracle i cis).length ≤ cis.length := by
  intro cis
  induction cis with
  | nil => intro i; simp [formattedList]
  | cons ci rest ih =>
      intro i
      simp only [formattedList]
      cases formatStep fmtOracle i ci with
      | none => exact le_trans (ih (i + 1)) (by simp)
      | some comment => simpa using ih (i + 1)

/-- Anatomy of a successful `Review` run: every early step succeeded and
the result and trace are the pipeline's outputs. -/
theorem Review_ok_anatomy (cfg : Config) (env : ReviewEnv) (dryRun : Bool)
    (result : ReviewResult) (trace : List ApiCall)
    (hrun : Review cfg env dryRun = .ok (result, trace)) :
    ∃ author files issues,
      env.parseRef = .ok () ∧ env.getPR = .ok author ∧
      env.getFiles = .ok files ∧ env.firstPass = .ok issues ∧
      result.comments = reviewComments cfg env author issues ∧
      result.summary = generateSummary cfg.writingStyle files.length
        (reviewComments cfg env author issues) ∧
      result.stats.filesReviewed = files.length ∧
      result.stats.issuesFound = issues.length ∧
      result.stats.issuesAfterDeep =
        (reviewConfirmed cfg env author issues).length ∧
      result.stats.nitpicksAdded = (reviewExtra cfg env author).2 ∧
      (dryRun = true → trace = [] ∧ result.stats.commentsPosted = 0) ∧
      (dryRun = false →
        env.postOutcome = none ∧
        result.stats.commentsPosted = result.comments.length ∧
        trace = [ApiCall.postReview result.summary
          (if result.comments.length > 0 ∧ effectiveNitpicky cfg author ≥ 7
           then "REQUEST_CHANGES" else "COMMENT") result.comments]) := by
  unfold Review at hrun
  cases hparse : env.parseRef with
  | error e => rw [hparse] at hrun; exact absurd hrun (by simp)
  | ok u =>
  rw [hparse] at hrun
  cases hpr : env.getPR with
  | error e => rw [hpr] at hrun; exact absurd hrun (by simp)
  | ok author =>
  rw [hpr] at hrun
  cases hfiles : env.getFiles with
  | error e => rw [hfiles] at hrun; exact absurd hrun (by simp)
  | ok files =>
  rw [hfiles] at hrun
  cases hfp : env.firstPass with
  | error e => rw [hfp] at hrun; exact absurd hrun (by simp)
  | ok issues =>
  rw [hfp] at hrun
  cases u
  refine ⟨author, files, issues, rfl, rfl, rfl, rfl, ?_⟩
  cases dryRun with
  | true =>
      simp only [if_true, reduceIte] at hrun
      rw [Except.ok.injEq, Prod.mk.injEq] at hrun
      obtain ⟨hres, htr⟩ := hrun
      subst hres
      subst htr
      refine ⟨rfl, rfl, rfl, rfl, rfl, rfl, fun _ => ⟨rfl, rfl⟩,
        fun hcontra => Bool.noConfusion hcontra⟩
  | false =>
      simp only [Bool.false_eq_true, if_false, reduceIte] at hrun
      cases hpost : env.postOutcome with
      | some e => rw [hpost] at hrun; exact absurd hrun (by simp)
      | none =>
      rw [hpost] at hrun
      rw [Except.ok.injEq, Prod.mk.injEq] at hrun
      obtain ⟨hres, htr⟩ := hrun
      subst hres
      subst htr
      exact ⟨rfl, rfl, rfl, rfl, rfl, rfl,
        fun hcontra => Bool.noConfusion hcontra,
        fun _ => ⟨rfl, rfl, rfl⟩⟩

/-- C1: for every first-pass candidate whose deep analysis succeeds, the
candidate is confirmed exactly when the verdict is COMMENT and the
confidence is at least the threshold `90 - 5*e`, `e` being the effective
nitpicky level for the PR author; every analyzed candidate below the
threshold or with a different verdict contributes nothing. -/
theorem C1_confirmation_threshold (cfg : Config) (env : ReviewEnv)
    (dryRun : Bool) (result : ReviewResult) (trace : List ApiCall)
    (author : String) (issues : List Issue)
    (hrun : Review cfg env dryRun = .ok (result, trace))
    (hpr : env.getPR = .ok author) (hfp : env.firstPass = .ok issues) :
    result.stats.issuesAfterDeep =
      (deepLoop (90 - effectiveNitpicky cfg author * 5) env.deep issues).length
    ∧ deepLoop (90 - effectiveNitpicky cfg author * 5) env.deep issues =
        confirmedList (90 - effectiveNitpicky cfg author * 5) env.deep 0 issues
    ∧ (∀ (i : Nat) (issue : Issue) (analysis : DeepAnalysisResult),
        env.deep i = .ok analysis →
          (confirmStep (90 - effectiveNitpicky cfg author * 5) env.deep i
              issue = some { original := issue, analysis := analysis } ↔
            analysis.finalVerdict = "COMMENT" ∧
              90 - 5 * effectiveNitpicky cfg author ≤ analysis.confidence))
    ∧ (∀ (i : Nat) (issue : Issue) (analysis : DeepAnalysisResult),
        env.deep i = .ok analysis →
          (confirmStep (90 - effectiveNitpicky cfg author * 5) env.deep i
              issue = none ↔
            ¬(analysis.finalVerdict = "COMMENT" ∧
              90 - 5 * effectiveNitpicky cfg author ≤ analysis.confidence))) := by
  obtain ⟨author', files', issues', _, hpr', _, hfp', _, _, _, _, hdeep, _⟩ :=
    Review_ok_anatomy cfg env dryRun result trace hrun
  have hauthor : author' = author := by
    rw [hpr] at hpr'
    exact (Except.ok.inj hpr').symm
  have hissues : issues' = issues := by
    rw [hfp] at hfp'
    exact (Except.ok.inj hfp').symm
  rw [hauthor, hissues] at hdeep
  unfold reviewConfirmed at hdeep
  refine ⟨hdeep, deepLoop_eq _ _ _, ?_, ?_⟩
  · intro i issue analysis hd
    rw [confirmStep_ok (90 - effectiveNitpicky cfg author * 5) env.deep i
      issue analysis hd]
    by_cases hc : analysis.confidence ≥ 90 - effectiveNitpicky cfg author * 5 ∧
        analysis.finalVerdict = "COMMENT"
    · obtain ⟨hc1, hc2⟩ := hc
      rw [if_pos ⟨hc1, hc2⟩]
      exact ⟨fun _ => ⟨hc2, by omega⟩, fun _ => rfl⟩
    · rw [if_neg hc]
      constructor
      · intro h
        exact absurd h (by simp)
      · intro hclaim
        exact absurd ⟨by omega, hclaim.1⟩ hc
  · intro i issue analysis hd
    rw [confirmStep_ok (90 - effectiveNitpicky cfg author * 5) env.deep i
      issue analysis hd]
    by_cases hc : analysis.confidence ≥ 90 - effectiveNitpicky cfg author * 5 ∧
        analysis.finalVerdict = "COMMENT"
    · obtain ⟨hc1, hc2⟩ := hc
      rw [if_pos ⟨hc1, hc2⟩]
      constructor
      · intro h
        exact absurd h (by simp)
      · intro hclaim
        exact absurd ⟨hc2, by omega⟩ hclaim
    · rw [if_neg hc]
      refine ⟨fun _ hclaim => ?_, fun _ => rfl⟩
      exact absurd ⟨by omega, hclaim.1⟩ hc

/-- A concrete candidate issue used by witnesses. -/
def sampleIssue : Issue :=
  { file := "main.go", line := 10, code := "x := 1",
    issue := "unused variable", confidence := 7, mightBeIntentional := "" }

/-- A concrete deep-analysis verdict used by witnesses. -/
def sampleAnalysis : DeepAnalysisResult :=
  { stillAnIssue := true, confidence := 90, reasoning := "a real issue",
    possibleAuthorIntent := "none apparent", finalVerdict := "COMMENT" }

/-- A concrete review environment used by witnesses: author bob (disliked
in `sampleConfig`), one candidate issue, deep analysis succeeding with
`sampleAnalysis`, formatting succeeding, no extra nitpicks. -/
def sampleReviewEnv : ReviewEnv :=
  { parseRef := .ok ()
    getPR := .ok "bob"
    getFiles := .ok []
    firstPass := .ok [sampleIssue]
    deep := fun _ => .ok sampleAnalysis
    fmtComment := fun _ => .ok "formatted comment"
    nitpicks := .error "nitpick generation failed"
    postOutcome := none }

/-- Witness for C1 at a concrete run. -/
theorem C1_confirmation_threshold_witness :
    ∃ result trace,
      Review sampleConfig sampleReviewEnv true = .ok (result, trace)
      ∧ (result.stats.issuesAfterDeep =
          (deepLoop (90 - effectiveNitpicky sampleConfig "bob" * 5)
            sampleReviewEnv.deep [sampleIssue]).length
        ∧ deepLoop (90 - effectiveNitpicky sampleConfig "bob" * 5)
            sampleReviewEnv.deep [sampleIssue] =
          confirmedList (90 - effectiveNitpicky sampleConfig "bob" * 5)
            sampleReviewEnv.deep 0 [sampleIssue]
        ∧ (∀ (i : Nat) (issue : Issue) (analysis : DeepAnalysisResult),
            sampleReviewEnv.deep i = .ok analysis →
              (confirmStep (90 - effectiveNitpicky sampleConfig "bob" * 5)
                  sampleReviewEnv.deep i issue =
                  some { original := issue, analysis := analysis } ↔
                analysis.finalVerdict = "COMMENT" ∧
                  90 - 5 * effectiveNitpicky sampleConfig "bob" ≤
                    analysis.confidence))
        ∧ (∀ (i : Nat) (issue : Issue) (analysis : DeepAnalysisResult),
            sampleReviewEnv.deep i = .ok analysis →
              (confirmStep (90 - effectiveNitpicky sampleConfig "bob" * 5)
                  sampleReviewEnv.deep i issue = none ↔
                ¬(analysis.finalVerdict = "COMMENT" ∧
                  90 - 5 * effectiveNitpicky sampleConfig "bob" ≤
                    analysis.confidence)))) := by
  refine ⟨_, _, rfl, ?_⟩
  exact C1_confirmation_threshold sampleConfig sampleReviewEnv true _ _
    "bob" [sampleIssue] rfl rfl rfl

/-- A review environment in which the first pass finds nothing but the
extra-nitpick call succeeds: the author bob is disliked in
`sampleConfig`, so `Review` appends a comment that passed neither
stage. -/
def nitpickOnlyEnv : ReviewEnv :=
  { parseRef := .ok ()
    getPR := .ok "bob"
    getFiles := .ok []
    firstPass := .ok []
    deep := fun _ => .error "never called"
    fmtComment := fun _ => .error "never called"
    nitpicks := .ok { nitpicks := [{ file := "main.go", line := 3,
                                     comment := "this variable could have a more descriptive name" }] }
    postOutcome := none }

/-- Counterexample to C3: a run whose first pass produced zero candidate
issues still emits a review comment (an extra nitpick for a disliked
author), so not every comment originates from a first-pass candidate
re-judged by deep analysis. -/
theorem C3_counterexample_extra_nitpicks :
    ∃ result trace,
      Review sampleConfig nitpickOnlyEnv true = .ok (result, trace)
      ∧ result.stats.issuesFound = 0
      ∧ result.comments ≠ []
      ∧ result.comments ≠
          formatLoop nitpickOnlyEnv.fmtComment
            (deepLoop (90 - effectiveNitpicky sampleConfig "bob" * 5)
              nitpickOnlyEnv.deep []) := by
  refine ⟨_, _, rfl, rfl, by decide, by decide⟩

/-- C3 as amended: every review comment either originates from a
first-pass candidate confirmed by deep analysis and then formatted, or is
an extra nitpick appended because the PR author is a disliked reviewer;
when the author is not disliked the extra part is empty, so all comments
pass both stages. -/
theorem C3_amended_two_stage_or_extra_nitpick (cfg : Config)
    (env : ReviewEnv) (dryRun : Bool) (result : ReviewResult)
    (trace : List ApiCall)
    (hrun : Review cfg env dryRun = .ok (result, trace)) :
    ∃ author issues,
      env.getPR = .ok author ∧ env.firstPass = .ok issues ∧
      result.comments =
        formatLoop env.fmtComment
          (deepLoop (90 - effectiveNitpicky cfg author * 5) env.deep issues)
        ++ (reviewExtra cfg env author).1
      ∧ (cfg.IsDislikedReviewer author = false →
          (reviewExtra cfg env author).1 = [])
      ∧ ((reviewExtra cfg env author).1 = [] ∨
          (cfg.IsDislikedReviewer author = true ∧ ∃ nps,
            env.nitpicks = .ok nps ∧
            (reviewExtra cfg env author).1 =
              nps.nitpicks.map nitpickComment)) := by
  obtain ⟨author, files, issues, _, hpr, _, hfp, hcomments, _⟩ :=
    Review_ok_anatomy cfg env dryRun result trace hrun
  refine ⟨author, issues, hpr, hfp, ?_, ?_, ?_⟩
  · rw [hcomments]
    rfl
  · intro hnot
    unfold reviewExtra
    rw [hnot]
    rfl
  · unfold reviewExtra
    by_cases hd : cfg.IsDislikedReviewer author
    · rw [if_pos hd]
      cases hnp : env.nitpicks with
      | error e => exact .inl rfl
      | ok nps => exact .inr ⟨hd, nps, rfl, rfl⟩
    · rw [if_neg hd]
      exact .inl rfl

/-- Witness for the amended C3 at a concrete run. -/
theorem C3_amended_witness :
    ∃ result trace,
      Review sampleConfig nitpickOnlyEnv true = .ok (result, trace)
      ∧ ∃ author issues,
          nitpickOnlyEnv.getPR = .ok author ∧
          nitpickOnlyEnv.firstPass = .ok issues ∧
          result.comments =
            formatLoop nitpickOnlyEnv.fmtComment
              (deepLoop (90 - effectiveNitpicky sampleConfig author * 5)
                nitpickOnlyEnv.deep issues)
            ++ (reviewExtra sampleConfig nitpickOnlyEnv author).1
          ∧ (sampleConfig.IsDislikedReviewer author = false →
              (reviewExtra sampleConfig nitpickOnlyEnv author).1 = [])
          ∧ ((reviewExtra sampleConfig nitpickOnlyEnv author).1 = [] ∨
              (sampleConfig.IsDislikedReviewer author = true ∧ ∃ nps,
                nitpickOnlyEnv.nitpicks = .ok nps ∧
                (reviewExtra sampleConfig nitpickOnlyEnv author).1 =
                  nps.nitpicks.map nitpickComment)) := by
  refine ⟨_, _, rfl, ?_⟩
  exact C3_amended_two_stage_or_extra_nitpick sampleConfig nitpickOnlyEnv
    true _ _ rfl

/-- C6: the confirmed issues are an order-preserving subsequence of the
first-pass candidates, each candidate contributes at most one review
comment (the confirmed list never outgrows the candidate list and the
formatted list never outgrows the confirmed list), and
`Stats.IssuesAfterDeep ≤ Stats.IssuesFound` on every successful run. -/
theorem C6_linear_accumulator_subsequence (cfg : Config) (env : ReviewEnv)
    (dryRun : Bool) (result : ReviewResult) (trace : List ApiCall)
    (author : String) (issues : List Issue)
    (hrun : Review cfg env dryRun = .ok (result, trace))
    (hpr : env.getPR = .ok author) (hfp : env.firstPass = .ok issues) :
    (((deepLoop (90 - effectiveNitpicky cfg author * 5) env.deep
        issues).map AnalyzedIssue.original).Sublist issues)
    ∧ (deepLoop (90 - effectiveNitpicky cfg author * 5) env.deep
        issues).length ≤ issues.length
    ∧ (formatLoop env.fmtComment
        (deepLoop (90 - effectiveNitpicky cfg author * 5) env.deep
          issues)).length ≤
        (deepLoop (90 - effectiveNitpicky cfg author * 5) env.deep
          issues).length
    ∧ result.stats.issuesAfterDeep ≤ result.stats.issuesFound := by
  obtain ⟨author', files', issues', _, hpr', _, hfp', _, _, _, hfound,
    hdeep, _⟩ := Review_ok_anatomy cfg env dryRun result trace hrun
  have hauthor : author' = author := by
    rw [hpr] at hpr'
    exact (Except.ok.inj hpr').symm
  have hissues : issues' = issues := by
    rw [hfp] at hfp'
    exact (Except.ok.inj hfp').symm
  rw [hauthor, hissues] at hdeep
  rw [hissues] at hfound
  unfold reviewConfirmed at hdeep
  refine ⟨?_, ?_, ?_, ?_⟩
  · rw [deepLoop_eq]
    exact confirmedList_map_original_sublist _ env.deep issues 0
  · rw [deepLoop_eq]
    exact confirmedList_length_le _ env.deep issues 0
  · rw [formatLoop_eq]
    exact formattedList_length_le env.fmtComment _ 0
  · rw [hdeep, hfound, deepLoop_eq]
    exact confirmedList_length_le _ env.deep issues 0

/-- Witness for C6 at a concrete run. -/
theorem C6_linear_accumulator_subsequence_witness :
    ∃ result trace,
      Review sampleConfig sampleReviewEnv true = .ok (result, trace)
      ∧ ((((deepLoop (90 - effectiveNitpicky sampleConfig "bob" * 5)
            sampleReviewEnv.deep [sampleIssue]).map
            AnalyzedIssue.original).Sublist [sampleIssue])
        ∧ (deepLoop (90 - effectiveNitpicky sampleConfig "bob" * 5)
            sampleReviewEnv.deep [sampleIssue]).length ≤
            ([sampleIssue] : List Issue).length
        ∧ (formatLoop sampleReviewEnv.fmtComment
            (deepLoop (90 - effectiveNitpicky sampleConfig "bob" * 5)
              sampleReviewEnv.deep [sampleIssue])).length ≤
            (deepLoop (90 - effectiveNitpicky sampleConfig "bob" * 5)
              sampleReviewEnv.deep [sampleIssue]).length
        ∧ result.stats.issuesAfterDeep ≤ result.stats.issuesFound) := by
  refine ⟨_, _, rfl, ?_⟩
  exact C6_linear_accumulator_subsequence sampleConfig sampleReviewEnv true
    _ _ "bob" [sampleIssue] rfl rfl rfl

/-- C10: whenever a review is posted (dry run disabled), the submitted
event is REQUEST_CHANGES exactly when at least one review comment was
generated and the effective nitpicky level for the author is at least 7;
in every other posting case the event is COMMENT. -/
theorem C10_request_changes_event (cfg : Config) (env : ReviewEnv)
    (result : ReviewResult) (trace : List ApiCall)
    (hrun : Review cfg env false = .ok (result, trace)) :
    ∃ author event,
      env.getPR = .ok author ∧
      trace = [ApiCall.postReview result.summary event result.comments] ∧
      (event = "REQUEST_CHANGES" ↔
        result.comments.length > 0 ∧ effectiveNitpicky cfg author ≥ 7) ∧
      (¬(result.comments.length > 0 ∧ effectiveNitpicky cfg author ≥ 7) →
        event = "COMMENT") := by
  obtain ⟨author, files, issues, _, hpr, _, _, _, _, _, _, _, _, _, hpost⟩ :=
    Review_ok_anatomy cfg env false result trace hrun
  obtain ⟨_, _, htrace⟩ := hpost rfl
  by_cases hc : result.comments.length > 0 ∧ effectiveNitpicky cfg author ≥ 7
  · refine ⟨author, "REQUEST_CHANGES", hpr, ?_, ?_, ?_⟩
    · rw [htrace, if_pos hc]
    · exact ⟨fun _ => hc, fun _ => rfl⟩
    · intro hnc
      exact absurd hc hnc
  · refine ⟨author, "COMMENT", hpr, ?_, ?_, fun _ => rfl⟩
    · rw [htrace, if_neg hc]
    · constructor
      · intro h
        exact absurd h (by decide)
      · intro h
        exact absurd h hc

/-- Witness for C10: a concrete non-dry-run review run. -/
theorem C10_request_changes_event_witness :
    ∃ result trace,
      Review sampleConfig sampleReviewEnv false = .ok (result, trace)
      ∧ ∃ author event,
          sampleReviewEnv.getPR = .ok author ∧
          trace = [ApiCall.postReview result.summary event
            result.comments] ∧
          (event = "REQUEST_CHANGES" ↔
            result.comments.length > 0 ∧
              effectiveNitpicky sampleConfig author ≥ 7) ∧
          (¬(result.comments.length > 0 ∧
              effectiveNitpicky sampleConfig author ≥ 7) →
            event = "COMMENT") := by
  refine ⟨_, _, rfl, ?_⟩
  exact C10_request_changes_event sampleConfig sampleReviewEnv _ _ rfl

/-! ## The defense pipeline (`internal/defender/defender.go`) -/

/-- `CommentAnalysis` from `defender.go`. -/
structure CommentAnalysis where
  isValidIssue : Bool
  confidenceValid : Int
  defensePoints : List String
  whatTheyMissed : String
  recommendedAction : String
deriving Repr, DecidableEq

/-- `CommentResponse` from `defender.go`. -/
structure CommentResponse where
  originalComment : PRComment
  response : String
  action : String
deriving Repr, DecidableEq

/-- `DefenseStats` from `defender.go`. -/
structure DefenseStats where
  commentsAnalyzed : Nat
  defended : Nat
  conceded : Nat
  skipped : Nat
deriving Repr, DecidableEq

/-- `DefenseResult` from `defender.go`. -/
structure DefenseResult where
  responses : List CommentResponse
  stats : DefenseStats
deriving Repr, DecidableEq

/-- `Defender.getMyUsername`: a hardcoded placeholder. -/
def getMyUsername : String := "me"

/-- The environment of one `Defender.Defend` run: outcomes of the
external calls, the per-item ones keyed by the loop position
(`analyzeComment`, `generateDefense`, `generateConcession` for reviewer
comment `i`). -/
structure DefendEnv where
  parseRef : Except String Unit
  getPR : Except String String
  getComments : Except String (List PRComment)
  analyze : Nat → Except String CommentAnalysis
  genDefense : Nat → Except String String
  genConcession : Nat → Except String String

/-- One iteration of the defense loop (`defender.go` lines 119–161):
a failed analysis only bumps Skipped; otherwise the Conceded or Defended
counter is bumped first (exactly as the Go code does before checking the
generation error), and a failed response generation then bumps Skipped
and drops the item, while success appends the response. -/
def defendStep (env : DefendEnv) (i : Nat) (comment : PRComment)
    (acc : List CommentResponse) (stats : DefenseStats) :
    List CommentResponse × DefenseStats :=
  match env.analyze i with
  | .error _ => (acc, { stats with skipped := stats.skipped + 1 })
  | .ok analysis =>
      let concede := analysis.recommendedAction = "CONCEDE" ∨
        analysis.confidenceValid ≥ 95
      let outcome :=
        if concede then
          (env.genConcession i, { stats with conceded := stats.conceded + 1 })
        else
          (env.genDefense i, { stats with defended := stats.defended + 1 })
      match outcome.1 with
      | .error _ =>
          (acc, { outcome.2 with skipped := outcome.2.skipped + 1 })
      | .ok response =>
          (acc ++ [{ originalComment := comment, response := response,
                     action := analysis.recommendedAction }], outcome.2)

/-- The defense loop over the filtered reviewer comments. -/
def defendLoop (env : DefendEnv) :
    Nat → List PRComment → List CommentResponse × DefenseStats →
      List CommentResponse × DefenseStats
  | _, [], st => st
  | i, comment :: rest, st =>
      defendLoop env (i + 1) rest (defendStep env i comment st.1 st.2)

/-- `Defender.Defend` (`defender.go` lines 60–191): parse the reference,
fetch the PR and its comments, keep top-level comments from other users,
return an empty result when there are none, otherwise analyze and respond
to each comment, then either print (dry run, empty trace) or reply to
every generated response (reply failures are only logged, so the trace
records one call per response either way). -/
def Defend (cfg : Config) (env : DefendEnv) (dryRun : Bool) :
    Except String (DefenseResult × List ApiCall) :=
  match env.parseRef with
  | .error e => .error e
  | .ok _ =>
  match env.getPR with
  | .error e => .error e
  | .ok _author =>
  match env.getComments with
  | .error e => .error e
  | .ok comments =>
    let otherComments := comments.filter
      (fun c => c.user != getMyUsername && c.inReplyTo == 0)
    if otherComments.isEmpty then
      .ok ({ responses := []
             stats := { commentsAnalyzed := 0, defended := 0,
                        conceded := 0, skipped := 0 } }, [])
    else
      let st := defendLoop env 0 otherComments
        ([], { commentsAnalyzed := otherComments.length, defended := 0,
               conceded := 0, skipped := 0 })
      if dryRun then
        .ok ({ responses := st.1, stats := st.2 }, [])
      else
        .ok ({ responses := st.1, stats := st.2 },
          st.1.map (fun r =>
            ApiCall.replyToComment r.originalComment.id r.response))

theorem defendStep_analyze_error (env : DefendEnv) (i : Nat)
    (comment : PRComment) (acc : List CommentResponse)
    (stats : DefenseStats) (msg : String)
    (hd : env.analyze i = .error msg) :
    defendStep env i comment acc stats =
      (acc, { stats with skipped := stats.skipped + 1 }) := by
  unfold defendStep
  rw [hd]

theorem defendStep_generation_error (env : DefendEnv) (i : Nat)
    (comment : PRComment) (acc : List CommentResponse)
    (stats : DefenseStats) (analysis : CommentAnalysis) (msg : String)
    (hd : env.analyze i = .ok analysis)
    (hgen : (if analysis.recommendedAction = "CONCEDE" ∨
        analysis.confidenceValid ≥ 95
      then env.genConcession i else env.genDefense i) = .error msg) :
    (defendStep env i comment acc stats).1 = acc := by
  unfold defendStep
  rw [hd]
  by_cases hc : analysis.recommendedAction = "CONCEDE" ∨
      analysis.confidenceValid ≥ 95
  · rw [if_pos hc] at hgen
    simp only [hc, if_true, reduceIte, hgen]
  · rw [if_neg hc] at hgen
    simp only [hc, if_false, reduceIte, hgen]

theorem defendLoop_cons (env : DefendEnv) (i : Nat) (comment : PRComment)
    (rest : List PRComment) (st : List CommentResponse × DefenseStats) :
    defendLoop env i (comment :: rest) st =
      defendLoop env (i + 1) rest (defendStep env i comment st.1 st.2) :=
  rfl

theorem Review_total_on_item_errors (cfg : Config) (env : ReviewEnv)
    (dryRun : Bool) (author : String) (files : List FileChange)
    (issues : List Issue) (hparse : env.parseRef = .ok ())
    (hpr : env.getPR = .ok author) (hfiles : env.getFiles = .ok files)
    (hfp : env.firstPass = .ok issues)
    (hpost : dryRun = true ∨ env.postOutcome = none) :
    ∃ result trace, Review cfg env dryRun = .ok (result, trace) := by
  unfold Review
  rw [hparse, hpr, hfiles, hfp]
  cases dryRun with
  | true => exact ⟨_, _, rfl⟩
  | false =>
      rcases hpost with hcontra | hnone
      · exact absurd hcontra (by decide)
      · rw [hnone]
        exact ⟨_, _, rfl⟩

theorem Defend_total_on_item_errors (cfg : Config) (env : DefendEnv)
    (dryRun : Bool) (author : String) (comments : List PRComment)
    (hparse : env.parseRef = .ok ()) (hpr : env.getPR = .ok author)
    (hcm : env.getComments = .ok comments) :
    ∃ result trace, Defend cfg env dryRun = .ok (result, trace) := by
  unfold Defend
  rw [hparse, hpr, hcm]
  dsimp only
  by_cases hempty : (comments.filter
      (fun c => c.user != getMyUsername && c.inReplyTo == 0)).isEmpty
  · rw [if_pos hempty]
    exact ⟨_, _, rfl⟩
  · rw [if_neg hempty]
    cases dryRun with
    | true => exact ⟨_, _, rfl⟩
    | false => exact ⟨_, _, rfl⟩

/-- C4: failure recovery is log-and-skip per item.  In each per-item
loop — deep analysis of a candidate, formatting of a confirmed issue's
comment, and analysis or response generation for a reviewer comment — an
error on an item only skips that item: the accumulated results are
untouched and the loop continues with the remaining items at the next
position; and with the per-run calls succeeding, `Review` and `Defend`
return a result for every behavior of the per-item oracles. -/
theorem C4_log_and_skip_per_item :
    (∀ (threshold : Int) (deep : Nat → Except String DeepAnalysisResult)
        (i : Nat) (issue : Issue) (rest : List Issue)
        (acc : List AnalyzedIssue) (msg : String),
      deep i = .error msg →
        deepLoopGo threshold deep i (issue :: rest) acc =
          deepLoopGo threshold deep (i + 1) rest acc)
    ∧ (∀ (fmtOracle : Nat → Except String String) (i : Nat)
        (ci : AnalyzedIssue) (rest : List AnalyzedIssue)
        (acc : List ReviewComment) (msg : String),
      fmtOracle i = .error msg →
        formatLoopGo fmtOracle i (ci :: rest) acc =
          formatLoopGo fmtOracle (i + 1) rest acc)
    ∧ (∀ (env : DefendEnv) (i : Nat) (comment : PRComment)
        (acc : List CommentResponse) (stats : DefenseStats) (msg : String),
      env.analyze i = .error msg →
        defendStep env i comment acc stats =
          (acc, { stats with skipped := stats.skipped + 1 }))
    ∧ (∀ (env : DefendEnv) (i : Nat) (comment : PRComment)
        (acc : List CommentResponse) (stats : DefenseStats)
        (analysis : CommentAnalysis) (msg : String),
      env.analyze i = .ok analysis →
      (if analysis.recommendedAction = "CONCEDE" ∨
          analysis.confidenceValid ≥ 95
        then env.genConcession i else env.genDefense i) = .error msg →
        (defendStep env i comment acc stats).1 = acc)
    ∧ (∀ (env : DefendEnv) (i : Nat) (comment : PRComment)
        (rest : List PRComment) (st : List CommentResponse × DefenseStats),
      defendLoop env i (comment :: rest) st =
        defendLoop env (i + 1) rest (defendStep env i comment st.1 st.2))
    ∧ (∀ (cfg : Config) (env : ReviewEnv) (dryRun : Bool) (author : String)
        (files : List FileChange) (issues : List Issue),
      env.parseRef = .ok () → env.getPR = .ok author →
      env.getFiles = .ok files → env.firstPass = .ok issues →
      (dryRun = true ∨ env.postOutcome = none) →
      ∃ result trace, Review cfg env dryRun = .ok (result, trace))
    ∧ (∀ (cfg : Config) (env : DefendEnv) (dryRun : Bool) (author : String)
        (comments : List PRComment),
      env.parseRef = .ok () → env.getPR = .ok author →
      env.getComments = .ok comments →
      ∃ result trace, Defend cfg env dryRun = .ok (result, trace)) := by
  refine ⟨?_, ?_, ?_, ?_, ?_, ?_, ?_⟩
  · intro threshold deep i issue rest acc msg hd
    exact deepLoopGo_cons_error threshold deep i issue rest acc msg hd
  · intro fmtOracle i ci rest acc msg hf
    exact formatLoopGo_cons_error fmtOracle i ci rest acc msg hf
  · intro env i comment acc stats msg hd
    exact defendStep_analyze_error env i comment acc stats msg hd
  · intro env i comment acc stats analysis msg hd hgen
    exact defendStep_generation_error env i comment acc stats analysis msg
      hd hgen
  · intro env i comment rest st
    exact defendLoop_cons env i comment rest st
  · intro cfg env dryRun author files issues hparse hpr hfiles hfp hpost
    exact Review_total_on_item_errors cfg env dryRun author files issues
      hparse hpr hfiles hfp hpost
  · intro cfg env dryRun author comments hparse hpr hcm
    exact Defend_total_on_item_errors cfg env dryRun author comments
      hparse hpr hcm

theorem Defend_trace_shape (cfg : Config) (env : DefendEnv) (dryRun : Bool)
    (result : DefenseResult) (trace : List ApiCall)
    (hrun : Defend cfg env dryRun = .ok (result, trace)) :
    trace = [] ∨
      (dryRun = false ∧ trace = result.responses.map (fun r =>
        ApiCall.replyToComment r.originalComment.id r.response)) := by
  unfold Defend at hrun
  cases hparse : env.parseRef with
  | error e => rw [hparse] at hrun; exact absurd hrun (by simp)
  | ok u =>
  rw [hparse] at hrun
  cases hpr : env.getPR with
  | error e => rw [hpr] at hrun; exact absurd hrun (by simp)
  | ok author =>
  rw [hpr] at hrun
  cases hcm : env.getComments with
  | error e => rw [hcm] at hrun; exact absurd hrun (by simp)
  | ok comments =>
  rw [hcm] at hrun
  dsimp only at hrun
  by_cases hempty : (comments.filter
      (fun c => c.user != getMyUsername && c.inReplyTo == 0)).isEmpty
  · rw [if_pos hempty] at hrun
    rw [Except.ok.injEq, Prod.mk.injEq] at hrun
    exact .inl hrun.2.symm
  · rw [if_neg hempty] at hrun
    cases dryRun with
    | true =>
        rw [if_pos rfl] at hrun
        rw [Except.ok.injEq, Prod.mk.injEq] at hrun
        exact .inl hrun.2.symm
    | false =>
        rw [if_neg (by decide)] at hrun
        rw [Except.ok.injEq, Prod.mk.injEq] at hrun
        obtain ⟨hres, htr⟩ := hrun
        refine .inr ⟨rfl, ?_⟩
        rw [← htr, ← hres]

/-- C5: with dry-run enabled neither `Review` nor `Defend` performs any
call to the hosting API — `PostReview` and `ReplyToComment` are never
invoked, the trace is empty and the result is only reported; any recorded
hosting-API call implies dry-run was disabled. -/
theorem C5_dry_run_never_posts :
    (∀ (cfg : Config) (env : ReviewEnv) (result : ReviewResult)
        (trace : List ApiCall),
      Review cfg env true = .ok (result, trace) → trace = [])
    ∧ (∀ (cfg : Config) (env : DefendEnv) (result : DefenseResult)
        (trace : List ApiCall),
      Defend cfg env true = .ok (result, trace) → trace = [])
    ∧ (∀ (cfg : Config) (env : ReviewEnv) (dryRun : Bool)
        (result : ReviewResult) (trace : List ApiCall) (call : ApiCall),
      Review cfg env dryRun = .ok (result, trace) → call ∈ trace →
        dryRun = false)
    ∧ (∀ (cfg : Config) (env : DefendEnv) (dryRun : Bool)
        (result : DefenseResult) (trace : List ApiCall) (call : ApiCall),
      Defend cfg env dryRun = .ok (result, trace) → call ∈ trace →
        dryRun = false) := by
  have hrev : ∀ (cfg : Config) (env : ReviewEnv) (result : ReviewResult)
      (trace : List ApiCall),
      Review cfg env true = .ok (result, trace) → trace = [] := by
    intro cfg env result trace hrun
    obtain ⟨author, files, issues, _, _, _, _, _, _, _, _, _, _, hdry, _⟩ :=
      Review_ok_anatomy cfg env true result trace hrun
    exact (hdry rfl).1
  have hdef : ∀ (cfg : Config) (env : DefendEnv) (result : DefenseResult)
      (trace : List ApiCall),
      Defend cfg env true = .ok (result, trace) → trace = [] := by
    intro cfg env result trace hrun
    rcases Defend_trace_shape cfg env true result trace hrun with h | ⟨h, _⟩
    · exact h
    · exact absurd h (by decide)
  refine ⟨hrev, hdef, ?_, ?_⟩
  · intro cfg env dryRun result trace call hrun hmem
    cases dryRun with
    | true =>
        rw [hrev cfg env result trace hrun] at hmem
        exact absurd hmem (by simp)
    | false => rfl
  · intro cfg env dryRun result trace call hrun hmem
    cases dryRun with
    | true =>
        rw [hdef cfg env result trace hrun] at hmem
        exact absurd hmem (by simp)
    | false => rfl
